import Mathlib

/-!
Verification development for the wells map layer of the
webviz-subsurface-components repository
(src/lib/components/DeckGLMap/layers/wells/wellsLayer.ts).

The TypeScript sources are shallowly embedded: JavaScript numbers are
modelled as exact rationals (ℚ), JavaScript arrays as lists, a possibly
undefined value as an Option, and a thrown TypeError as a distinguished
error result.  Every definition below is translated from the source file,
with comments pointing at the corresponding lines.
-/

namespace WellsLayerSpec

/-- Number.MAX_VALUE, the largest finite IEEE-754 double, as an exact
rational: (2 - 2⁻⁵²)·2¹⁰²³ = (2⁵³ - 1)·2⁹⁷¹.  This is the initial value of
min_d in WellsLayer.getPickingInfo (line 204). -/
def MAXV : ℚ := (2 ^ 53 - 1) * 2 ^ 971

/-- squared_distance (wellsLayer.ts lines 90–94): the squared Euclidean
distance between two coordinate pairs. -/
def squared_distance (a b : ℚ × ℚ) : ℚ :=
  let dx := a.1 - b.1
  let dy := a.2 - b.2
  dx * dx + dy * dy

/-- A dynamically typed element of a row of LogCurveDataType.data: either a
plain number (a log-curve sample) or a coordinate pair (a vertex of the
well trajectory stored in data[0]). -/
inductive JSVal where
  | num (q : ℚ)
  | point (p : ℚ × ℚ)
deriving DecidableEq

/-- squared_distance applied to a trajectory element, as getPickingInfo
does (line 207).  Applying it to a plain number reads field 0 and 1 of a
number, which is undefined in JavaScript, so the resulting distance is
NaN; none models NaN here. -/
def sqDistJS (v : JSVal) (c : ℚ × ℚ) : Option ℚ :=
  match v with
  | .point p => some (squared_distance p c)
  | .num _ => none

/-- The JavaScript comparison d > min_d of line 208, where either side may
be NaN (none): any comparison with NaN is false. -/
def jsGT : Option ℚ → Option ℚ → Bool
  | some a, some b => decide (b < a)
  | _, _ => false

/-- The loop of getPickingInfo lines 206–212: it walks the distances of
the trajectory vertices in order, carrying (vertex_index, min_d), skipping
a vertex when its distance is strictly greater than min_d, and otherwise
taking it (so a tie moves the index forward). -/
def scanAux : List (Option ℚ) → ℕ → ℕ × Option ℚ → ℕ × Option ℚ
  | [], _, acc => acc
  | d :: rest, i, acc => scanAux rest (i + 1) (if jsGT d acc.2 then acc else (i, d))

/-- The same loop restricted to real (non-NaN) distances, used to reason
about scanAux when every distance is a rational. -/
def scanAuxQ : List ℚ → ℕ → ℕ × ℚ → ℕ × ℚ
  | [], _, acc => acc
  | d :: rest, i, acc => scanAuxQ rest (i + 1) (if acc.2 < d then acc else (i, d))

/-- The nearest-vertex computation of getPickingInfo lines 202–212:
starting from vertex_index = 0 and min_d = Number.MAX_VALUE, scan the
squared distances from each trajectory element to the pointer
coordinate. -/
def nearestVertex (elems : List JSVal) (c : ℚ × ℚ) : ℕ × Option ℚ :=
  scanAux (elems.map (fun v => sqDistJS v c)) 0 (0, some MAXV)

/-- An entry of LogCurveDataType.curves (wellsLayer.ts lines 17–20). -/
structure Curve where
  name : String
  description : String
deriving DecidableEq

/-- Array.prototype.findIndex: the index of the first element satisfying
the predicate, and -1 when there is none. -/
def jsFindIndexAux {α : Type} (p : α → Bool) : List α → ℕ → ℤ
  | [], _ => -1
  | a :: l, i => if p a then (i : ℤ) else jsFindIndexAux p l (i + 1)

/-- String.prototype.toLowerCase on the character list of the string (the
log names in play are ASCII, where this agrees with JavaScript). -/
def jsToLower (s : String) : String := String.mk (s.data.map Char.toLower)

/-- The body of getLogIDByName (wellsLayer.ts lines 48–52): the findIndex
over the curves with a case-insensitive name comparison. -/
def findLogID (curves : List Curve) (log_name : String) : ℤ :=
  jsFindIndexAux (fun item => jsToLower item.name == jsToLower log_name) curves 0

/-- JavaScript array indexing with a (possibly negative) integer index:
out-of-range access yields undefined, modelled as none. -/
def jsIndexI {α : Type} (xs : List α) (i : ℤ) : Option α :=
  if 0 ≤ i then xs.get? i.toNat else none

/-- JavaScript array indexing with an arbitrary numeric index: the access
yields undefined unless the index is a nonnegative integer within range. -/
def jsIndexQ {α : Type} (xs : List α) (q : ℚ) : Option α :=
  if 0 ≤ q ∧ q.den = 1 then xs.get? q.num.toNat else none

/-- Truncation toward zero, as JavaScript's remainder operator uses. -/
def jsTrunc (q : ℚ) : ℤ := if 0 ≤ q then ⌊q⌋ else ⌈q⌉

/-- The JavaScript remainder a % b (used with b = 10 on line 74):
a - b·trunc(a / b). -/
def jsMod (a b : ℚ) : ℚ := a - b * (jsTrunc (a / b) : ℚ)

/-- JavaScript division as used by the normalization on line 67.  A zero
denominator produces no finite number (here the numerator is zero as well,
so the JavaScript result is NaN); none models that NaN.  Downstream, d3's
rgb formatter clamps a NaN channel to 0 (Math.round(NaN) || 0 in
d3-color's formatRgb), so the interpolator formats the string
"rgb(0, 0, 0)", color() parses it, and the continuous branch pushes the
color [0, 0, 0] for such a sample. -/
def jsDiv (a b : ℚ) : Option ℚ := if b = 0 then none else some (a / b)

/-- The header object of LogCurveDataType (wellsLayer.ts lines 14–16). -/
structure Header where
  name : String
deriving DecidableEq

/-- LogCurveDataType (wellsLayer.ts lines 13–22) as consumed by
getLogColor and getLogWidth, where every data row is a row of numeric
samples. -/
structure LogCurveDataType where
  header : Header
  curves : List Curve
  data : List (List ℚ)
deriving DecidableEq

/-- An RGBA or RGB color pushed into the result array, modelled as the
JavaScript array of its channels. -/
abbrev Color := List ℚ

/-- COLOR_MAP (wellsLayer.ts lines 36–46): nine RGBA entries. -/
def COLOR_MAP : List Color :=
  [[0, 0, 0, 0],
   [0, 255, 0, 255],
   [0, 0, 255, 255],
   [255, 255, 0, 255],
   [255, 0, 255, 255],
   [0, 255, 255, 255],
   [125, 125, 255, 255],
   [125, 255, 125, 255],
   [255, 125, 125, 255]]

/-- getLogIDByName (wellsLayer.ts lines 48–52). -/
def getLogIDByName (d : LogCurveDataType) (log_name : String) : ℤ :=
  findLogID d.curves log_name

/-- The result of getLogColor: the returned color array, or a thrown
TypeError. -/
inductive ColorResult where
  | ok (colors : List (Option Color))
  | typeError
deriving DecidableEq

/-- getLogColor (wellsLayer.ts lines 55–78).  The parameter interp models
the external d3 pipeline t ↦ color(color_interp(t))?.rgb() for a finite
parameter t; it is none when d3 yields no color.  The NaN parameter of a
zero max_delta is not passed to interp: d3's channel clamping
(Math.round(NaN) || 0) makes the pipeline yield the parseable string
"rgb(0, 0, 0)", so the code pushes [0, 0, 0] for such a sample.  A none
entry of the returned list models a JavaScript undefined pushed into the
array (the discrete branch pushes COLOR_MAP[value % 10] unconditionally).
The typeError result models the TypeError thrown when d.data[log_id] is
undefined and the code spreads or iterates it. -/
def getLogColor (interp : ℚ → Option (ℚ × ℚ × ℚ)) (d : LogCurveDataType)
    (log_name : String) : ColorResult :=
  let log_id := getLogIDByName d log_name
  if log_id = 0 then .ok []
  else
    match jsIndexI d.curves log_id with
    | none => .ok []
    | some curve =>
      match jsIndexI d.data log_id with
      | none => .typeError
      | some row =>
        if curve.description = "continuous" then
          match row with
          | [] => .ok []
          | v0 :: rest =>
            let mn := rest.foldl Min.min v0
            let mx := rest.foldl Max.max v0
            let max_delta := mx - mn
            .ok ((v0 :: rest).filterMap (fun value =>
              match jsDiv (value - mn) max_delta with
              | none => some (some [0, 0, 0])
              | some t =>
                match interp t with
                | none => none
                | some rgb => some (some [rgb.1, rgb.2.1, rgb.2.2])))
        else
          .ok (row.map (fun value => jsIndexQ COLOR_MAP (jsMod value 10)))

/-- The denominator max_delta = max - min with which the continuous branch
of getLogColor evaluates its normalizing divisions (wellsLayer.ts lines
62–67), following exactly the control flow of getLogColor: it is some
value precisely when the continuous branch is reached with a nonempty
row, i.e. when at least one division (value - min) / max_delta is
evaluated with that denominator. -/
def contMaxDelta (d : LogCurveDataType) (log_name : String) : Option ℚ :=
  let log_id := getLogIDByName d log_name
  if log_id = 0 then none
  else
    match jsIndexI d.curves log_id with
    | none => none
    | some curve =>
      match jsIndexI d.data log_id with
      | none => none
      | some row =>
        if curve.description = "continuous" then
          match row with
          | [] => none
          | v0 :: rest => some (rest.foldl Max.max v0 - rest.foldl Min.min v0)
        else none

/-- The result of getLogWidth: the declared TypeScript type is
number[] | null, but the body can also produce undefined (the
out-of-range access d.data[-1]), so the model keeps the three cases
apart. -/
inductive WidthResult where
  | jsNull
  | jsUndefined
  | arr (xs : List ℚ)
deriving DecidableEq

/-- getLogWidth (wellsLayer.ts lines 80–83): log_id ? d?.data[log_id] :
null, where log_id is falsy exactly when it is 0. -/
def getLogWidth (d : LogCurveDataType) (log_name : String) : WidthResult :=
  let log_id := getLogIDByName d log_name
  if log_id = 0 then .jsNull
  else
    match jsIndexI d.data log_id with
    | none => .jsUndefined
    | some row => .arr row

/-- A row of the data array of the object handed to getPickingInfo.  At
runtime the rows are dynamically typed: row 0 holds the trajectory's
coordinate pairs (it is consumed by getPath on line 171 and by
squared_distance on line 207), while the remaining rows hold numeric
log samples. -/
inductive Row where
  | nums (xs : List ℚ)
  | points (ps : List (ℚ × ℚ))
deriving DecidableEq

/-- The elements of a data row, as the dynamically typed values the
picking loop iterates over. -/
def rowElems : Row → List JSVal
  | .nums xs => xs.map JSVal.num
  | .points ps => ps.map JSVal.point

/-- The picked object as getPickingInfo reads it: a curves array and a
possibly missing data field (the guard on line 199 tests for a falsy
data). -/
structure PickObj where
  curves : List Curve
  data : Option (List Row)
deriving DecidableEq

/-- The fields of the incoming PickInfo that getPickingInfo reads: the
picked object (possibly undefined) and the pointer coordinate (possibly
undefined). -/
structure PickInfoIn where
  object : Option PickObj
  coordinate : Option (ℚ × ℚ)
deriving DecidableEq

/-- The observable result of getPickingInfo: the info object returned
unchanged, the info object extended with propertyValue and logName
(lines 224–228), or a thrown TypeError. -/
inductive PickOut where
  | unchanged
  | annotated (propertyValue : Option JSVal) (logName : String)
  | jsError
deriving DecidableEq

/-- The tail of getPickingInfo after the vertex scan (wellsLayer.ts lines
214–228): resolve the log id (returning the info unchanged when the id is
falsy, i.e. 0), then read data[log_id][vertex_index] and
curves[log_id].name.  When log_id is -1, data[-1] is undefined and
indexing it throws a TypeError. -/
def pickAnnotate (obj : PickObj) (rows : List Row) (vertex_index : ℕ)
    (logName : String) : PickOut :=
  let log_id := findLogID obj.curves logName
  if log_id = 0 then .unchanged
  else
    match jsIndexI rows log_id with
    | none => .jsError
    | some rowk =>
      let value := (rowElems rowk).get? vertex_index
      match jsIndexI obj.curves log_id with
      | none => .jsError
      | some curve => .annotated value curve.name

/-- WellsLayer.getPickingInfo (wellsLayer.ts lines 194–229).  The guard of
lines 199–200 returns the info unchanged when the object or its data
field is missing; reading trajectory.length throws when data is empty
(data[0] undefined); the distance of line 207 reads coordinate[0], which
throws when the coordinate is undefined and the trajectory has at least
one element. -/
def getPickingInfo (logName : String) (info : PickInfoIn) : PickOut :=
  match info.object with
  | none => .unchanged
  | some obj =>
    match obj.data with
    | none => .unchanged
    | some rows =>
      match rows.get? 0 with
      | none => .jsError
      | some row0 =>
        let elems := rowElems row0
        match info.coordinate with
        | none => if elems.isEmpty then pickAnnotate obj rows 0 logName else .jsError
        | some c => pickAnnotate obj rows (nearestVertex elems c).1 logName

/-- WellsLayerProps (wellsLayer.ts lines 24–34), over an abstract feature
type F; the selectedFeature holds the clicked object, which may be
undefined. -/
structure WellsLayerProps (F : Type) where
  pointRadiusScale : ℚ
  lineWidthScale : ℚ
  outline : Bool
  selectedFeature : Option F
  selectionEnabled : Bool
  logData : String ⊕ LogCurveDataType
  logName : String
  logRadius : ℚ
  logCurves : Bool
deriving DecidableEq

/-- Modelled from the spec: patchLayerProps, imported from
../utils/layerTools, is not among the provided sources.  Per the spec the
layer contributes only synchronous callbacks that hand the host rendering
framework a patched copy of the layer props, so patching is modelled as
the layer's props becoming the supplied object. -/
def patchLayerProps {F : Type} (_layer newProps : WellsLayerProps F) :
    WellsLayerProps F := newProps

/-- WellsLayer.onClick (wellsLayer.ts lines 105–115): when selection is
disabled it returns false without patching; otherwise it patches the
props with a copy whose selectedFeature is the clicked object and returns
true.  The result pairs the returned boolean with the resulting layer
props. -/
def onClick {F : Type} (props : WellsLayerProps F) (infoObject : Option F) :
    Bool × WellsLayerProps F :=
  if props.selectionEnabled = false then (false, props)
  else (true, patchLayerProps props { props with selectedFeature := infoObject })

end WellsLayerSpec

namespace WellsLayerSpec

/-! ### Lemmas about the nearest-vertex scan -/

/-- scanAux on a list of real distances agrees with scanAuxQ. -/
lemma scanAux_map_some (qs : List ℚ) (i p : ℕ) (m : ℚ) :
    scanAux (qs.map some) i (p, m) =
      ((scanAuxQ qs i (p, m)).1, some (scanAuxQ qs i (p, m)).2) := by
  induction qs generalizing i p m with
  | nil => rfl
  | cons q rest ih =>
    simp only [List.map_cons, scanAux, scanAuxQ, jsGT, decide_eq_true_eq]
    by_cases h : m < q
    · rw [if_pos h, if_pos h]
      exact ih (i + 1) p m
    · rw [if_neg h, if_neg h]
      exact ih (i + 1) i q

/-- The final min_d of the scan is a lower bound of the initial min_d and
of every distance of the list. -/
lemma scanAuxQ_le (qs : List ℚ) (i : ℕ) (acc : ℕ × ℚ) :
    (scanAuxQ qs i acc).2 ≤ acc.2 ∧
    ∀ k, k < qs.length → (scanAuxQ qs i acc).2 ≤ qs.getD k 0 := by
  induction qs generalizing i acc with
  | nil => exact ⟨le_refl _, fun k hk => absurd hk (by simp)⟩
  | cons q rest ih =>
    simp only [scanAuxQ]
    by_cases h : acc.2 < q
    · rw [if_pos h]
      refine ⟨(ih (i + 1) acc).1, fun k hk => ?_⟩
      cases k with
      | zero => exact le_of_lt (lt_of_le_of_lt (ih (i + 1) acc).1 h)
      | succ k' => exact (ih (i + 1) acc).2 k' (by simpa using hk)
    · rw [if_neg h]
      have hq : q ≤ acc.2 := le_of_not_lt h
      refine ⟨le_trans (ih (i + 1) (i, q)).1 hq, fun k hk => ?_⟩
      cases k with
      | zero => exact (ih (i + 1) (i, q)).1
      | succ k' => exact (ih (i + 1) (i, q)).2 k' (by simpa using hk)

/-- The scan either never updates the accumulator or ends at an index of
the list together with that element's distance. -/
lemma scanAuxQ_mem (qs : List ℚ) (i : ℕ) (acc : ℕ × ℚ) :
    scanAuxQ qs i acc = acc ∨
    ∃ k, k < qs.length ∧ (scanAuxQ qs i acc).1 = i + k ∧
      (scanAuxQ qs i acc).2 = qs.getD k 0 := by
  induction qs generalizing i acc with
  | nil => exact Or.inl rfl
  | cons q rest ih =>
    simp only [scanAuxQ]
    by_cases h : acc.2 < q
    · rw [if_pos h]
      rcases ih (i + 1) acc with h1 | ⟨k, hk, h1, h2⟩
      · exact Or.inl h1
      · exact Or.inr ⟨k + 1, by simpa using hk, by omega, by simpa using h2⟩
    · rw [if_neg h]
      rcases ih (i + 1) (i, q) with h1 | ⟨k, hk, h1, h2⟩
      · exact Or.inr ⟨0, by simp, by simp [h1], by simp [h1]⟩
      · exact Or.inr ⟨k + 1, by simpa using hk, by omega, by simpa using h2⟩

/-- As soon as some distance of the list is at most the initial min_d, the
scan ends at an index of the list together with that element's
distance. -/
lemma scanAuxQ_hit (qs : List ℚ) (i : ℕ) (acc : ℕ × ℚ)
    (h : ∃ k, k < qs.length ∧ qs.getD k 0 ≤ acc.2) :
    ∃ k, k < qs.length ∧ (scanAuxQ qs i acc).1 = i + k ∧
      (scanAuxQ qs i acc).2 = qs.getD k 0 := by
  induction qs generalizing i acc with
  | nil => simp at h
  | cons q rest ih =>
    simp only [scanAuxQ]
    by_cases hq : acc.2 < q
    · rw [if_pos hq]
      rcases h with ⟨k, hk, hle⟩
      cases k with
      | zero => exact absurd (lt_of_le_of_lt (by simpa using hle) hq) (lt_irrefl _)
      | succ k' =>
        rcases ih (i + 1) acc ⟨k', by simpa using hk, by simpa using hle⟩ with
          ⟨k, hk2, h1, h2⟩
        exact ⟨k + 1, by simpa using hk2, by omega, by simpa using h2⟩
    · rw [if_neg hq]
      rcases scanAuxQ_mem rest (i + 1) (i, q) with h1 | ⟨k, hk2, h1, h2⟩
      · exact ⟨0, by simp, by simp [h1], by simp [h1]⟩
      · exact ⟨k + 1, by simpa using hk2, by omega, by simpa using h2⟩

/-- Every element of the list strictly after the index at which the scan
ends is strictly farther: a tie moves the index forward, so the final
index is the last one attaining the final min_d. -/
lemma scanAuxQ_last (qs : List ℚ) (i : ℕ) (acc : ℕ × ℚ) :
    ∀ k, k < qs.length → (scanAuxQ qs i acc).1 < i + k →
      (scanAuxQ qs i acc).2 < qs.getD k 0 := by
  induction qs generalizing i acc with
  | nil => intro k hk; simp at hk
  | cons q rest ih =>
    intro k hk hlt
    simp only [scanAuxQ] at hlt ⊢
    by_cases h : acc.2 < q
    · rw [if_pos h] at hlt ⊢
      cases k with
      | zero => exact lt_of_le_of_lt (scanAuxQ_le rest (i + 1) acc).1 h
      | succ k' => exact (by simpa using ih (i + 1) acc k' (by simpa using hk) (by omega))
    · rw [if_neg h] at hlt ⊢
      cases k with
      | zero =>
        exfalso
        rcases scanAuxQ_mem rest (i + 1) (i, q) with h1 | ⟨k2, _, h1, _⟩
        · rw [h1] at hlt; omega
        · rw [h1] at hlt; omega
      | succ k' => exact (by simpa using ih (i + 1) (i, q) k' (by simpa using hk) (by omega))

end WellsLayerSpec

namespace WellsLayerSpec

/-- nearestVertex on a trajectory of coordinate pairs reduces to the pure
rational scan over the squared distances. -/
lemma nearestVertex_points (ps : List (ℚ × ℚ)) (c : ℚ × ℚ) :
    nearestVertex (ps.map JSVal.point) c =
      ((scanAuxQ (ps.map (fun p => squared_distance p c)) 0 (0, MAXV)).1,
       some (scanAuxQ (ps.map (fun p => squared_distance p c)) 0 (0, MAXV)).2) := by
  unfold nearestVertex
  rw [List.map_map]
  have h1 : (fun v => sqDistJS v c) ∘ JSVal.point =
      fun p => some (squared_distance p c) := rfl
  rw [h1]
  have h2 : ps.map (fun p => some (squared_distance p c)) =
      (ps.map (fun p => squared_distance p c)).map some := by
    rw [List.map_map]; rfl
  rw [h2]
  exact scanAux_map_some _ 0 0 MAXV

/-- Reading the distance list at an in-range index gives the squared
distance of the corresponding trajectory vertex. -/
lemma getD_map_dist (ps : List (ℚ × ℚ)) (c : ℚ × ℚ) (k : ℕ) (hk : k < ps.length) :
    (ps.map (fun p => squared_distance p c)).getD k 0 =
      squared_distance (ps.getD k (0, 0)) c := by
  induction ps generalizing k with
  | nil => simp at hk
  | cons p rest ih =>
    cases k with
    | zero => simp
    | succ k' => simpa using ih k' (by simpa using hk)

end WellsLayerSpec

namespace WellsLayerSpec

/-! ### Claims about the nearest-vertex picking -/

/-- C1: for every pick whose object has a non-empty trajectory data[0] of
coordinate pairs and a defined pointer coordinate, the vertex_index
computed by WellsLayer.getPickingInfo (the first component of
nearestVertex, which getPickingInfo applies to the trajectory) minimizes
the squared Euclidean distance to the pointer coordinate over all
trajectory indices.  The hypothesis hrep states that some squared
distance is representable, i.e. at most Number.MAX_VALUE, the initial
min_d; in JavaScript doubles this always holds since any finite double is
at most MAX_VALUE and all overflowing distances collapse to Infinity. -/
theorem nearestVertex_minimizes (ps : List (ℚ × ℚ)) (c : ℚ × ℚ)
    (_hne : ps ≠ [])
    (hrep : ∃ j, j < ps.length ∧ squared_distance (ps.getD j (0, 0)) c ≤ MAXV) :
    (nearestVertex (ps.map JSVal.point) c).1 < ps.length ∧
    ∀ i, i < ps.length →
      squared_distance (ps.getD ((nearestVertex (ps.map JSVal.point) c).1) (0, 0)) c ≤
        squared_distance (ps.getD i (0, 0)) c := by
  obtain ⟨j, hj, hjle⟩ := hrep
  have hlen : (ps.map (fun p => squared_distance p c)).length = ps.length := by simp
  have h1 : (ps.map (fun p => squared_distance p c)).getD j 0 ≤ MAXV := by
    rw [getD_map_dist ps c j hj]; exact hjle
  obtain ⟨k, hk, hidx, hval⟩ :=
    scanAuxQ_hit (ps.map (fun p => squared_distance p c)) 0 (0, MAXV)
      ⟨j, by omega, h1⟩
  rw [nearestVertex_points]
  have hk2 : k < ps.length := by omega
  constructor
  · simp only []
    omega
  · intro i hi
    simp only []
    have hL : (scanAuxQ (ps.map (fun p => squared_distance p c)) 0 (0, MAXV)).2 =
        squared_distance (ps.getD k (0, 0)) c := by
      rw [hval, getD_map_dist ps c k hk2]
    have hI : (scanAuxQ (ps.map (fun p => squared_distance p c)) 0 (0, MAXV)).1 = k := by
      omega
    rw [hI, ← hL, ← getD_map_dist ps c i hi]
    exact (scanAuxQ_le (ps.map (fun p => squared_distance p c)) 0 (0, MAXV)).2 i (by omega)

/-- Witness for C1 at a concrete trajectory and pointer coordinate. -/
theorem nearestVertex_minimizes_witness :
    (nearestVertex (([((0:ℚ), (0:ℚ)), ((3:ℚ), (0:ℚ))] : List (ℚ × ℚ)).map JSVal.point)
        ((1:ℚ), (0:ℚ))).1 < ([((0:ℚ), (0:ℚ)), ((3:ℚ), (0:ℚ))] : List (ℚ × ℚ)).length ∧
    ∀ i, i < ([((0:ℚ), (0:ℚ)), ((3:ℚ), (0:ℚ))] : List (ℚ × ℚ)).length →
      squared_distance (([((0:ℚ), (0:ℚ)), ((3:ℚ), (0:ℚ))] : List (ℚ × ℚ)).getD
          ((nearestVertex (([((0:ℚ), (0:ℚ)), ((3:ℚ), (0:ℚ))] : List (ℚ × ℚ)).map
            JSVal.point) ((1:ℚ), (0:ℚ))).1) (0, 0)) ((1:ℚ), (0:ℚ)) ≤
        squared_distance (([((0:ℚ), (0:ℚ)), ((3:ℚ), (0:ℚ))] : List (ℚ × ℚ)).getD i (0, 0))
          ((1:ℚ), (0:ℚ)) :=
  nearestVertex_minimizes [((0:ℚ), (0:ℚ)), ((3:ℚ), (0:ℚ))] ((1:ℚ), (0:ℚ))
    (by simp)
    ⟨0, by simp, by norm_num [squared_distance, MAXV]⟩

end WellsLayerSpec

namespace WellsLayerSpec

/-- C2, counterexample: on the two-vertex trajectory [(0,0), (0,0)] with
the pointer at (0,0) both vertices attain the minimal squared distance 0,
yet the scan returns vertex_index 1, not the smallest such index 0: the
condition d > min_d of line 208 lets a tie overwrite the index, so the
last minimizing vertex wins, not the first. -/
theorem nearestVertex_tie_counterexample :
    (nearestVertex (([((0:ℚ), (0:ℚ)), ((0:ℚ), (0:ℚ))] : List (ℚ × ℚ)).map JSVal.point)
        ((0:ℚ), (0:ℚ))).1 = 1 ∧
    squared_distance (([((0:ℚ), (0:ℚ)), ((0:ℚ), (0:ℚ))] : List (ℚ × ℚ)).getD 0 (0, 0))
        ((0:ℚ), (0:ℚ)) =
      squared_distance (([((0:ℚ), (0:ℚ)), ((0:ℚ), (0:ℚ))] : List (ℚ × ℚ)).getD 1 (0, 0))
        ((0:ℚ), (0:ℚ)) := by
  constructor
  · norm_num [nearestVertex, scanAux, jsGT, sqDistJS, squared_distance, MAXV]
  · norm_num [squared_distance]

/-- C2, amended: ties in the nearest-vertex linear scan are resolved by
last result wins: the returned vertex_index is an index attaining the
minimal squared distance, and every strictly later index is strictly
farther, so vertex_index is the largest minimizing index.  The
representability hypothesis is as in the C1 theorem. -/
theorem nearestVertex_tie_resolves_last (ps : List (ℚ × ℚ)) (c : ℚ × ℚ)
    (_hne : ps ≠ [])
    (hrep : ∃ j, j < ps.length ∧ squared_distance (ps.getD j (0, 0)) c ≤ MAXV) :
    (nearestVertex (ps.map JSVal.point) c).1 < ps.length ∧
    (∀ i, i < ps.length →
      squared_distance (ps.getD ((nearestVertex (ps.map JSVal.point) c).1) (0, 0)) c ≤
        squared_distance (ps.getD i (0, 0)) c) ∧
    ∀ i, i < ps.length → (nearestVertex (ps.map JSVal.point) c).1 < i →
      squared_distance (ps.getD ((nearestVertex (ps.map JSVal.point) c).1) (0, 0)) c <
        squared_distance (ps.getD i (0, 0)) c := by
  obtain ⟨hlt, hmin⟩ := nearestVertex_minimizes ps c _hne hrep
  refine ⟨hlt, hmin, ?_⟩
  intro i hi hgt
  obtain ⟨j, hj, hjle⟩ := hrep
  have hlen : (ps.map (fun p => squared_distance p c)).length = ps.length := by simp
  have h1 : (ps.map (fun p => squared_distance p c)).getD j 0 ≤ MAXV := by
    rw [getD_map_dist ps c j hj]; exact hjle
  obtain ⟨k, hk, hidx, hval⟩ :=
    scanAuxQ_hit (ps.map (fun p => squared_distance p c)) 0 (0, MAXV) ⟨j, by omega, h1⟩
  have hIdx : (nearestVertex (ps.map JSVal.point) c).1 =
      (scanAuxQ (ps.map (fun p => squared_distance p c)) 0 (0, MAXV)).1 := by
    rw [nearestVertex_points]
  have hk2 : k < ps.length := by omega
  have hL : (scanAuxQ (ps.map (fun p => squared_distance p c)) 0 (0, MAXV)).2 =
      squared_distance (ps.getD k (0, 0)) c := by
    rw [hval, getD_map_dist ps c k hk2]
  have hsc1 : (scanAuxQ (ps.map (fun p => squared_distance p c)) 0 (0, MAXV)).1 = k := by
    omega
  have hI : (nearestVertex (ps.map JSVal.point) c).1 = k := by rw [hIdx, hsc1]
  have hstrict := scanAuxQ_last (ps.map (fun p => squared_distance p c)) 0 (0, MAXV)
    i (by simpa using hi) (by rw [hsc1]; omega)
  rw [getD_map_dist ps c i hi] at hstrict
  rw [hI, ← hL]
  exact hstrict

/-- Witness for the amended C2 at a concrete trajectory with a tie: the
vertices at indices 0 and 2 both attain the minimum and the scan picks
index 2. -/
theorem nearestVertex_tie_resolves_last_witness :
    (nearestVertex (([((0:ℚ), (0:ℚ)), ((0:ℚ), (5:ℚ)), ((0:ℚ), (0:ℚ))] : List (ℚ × ℚ)).map
        JSVal.point) ((0:ℚ), (0:ℚ))).1 <
      ([((0:ℚ), (0:ℚ)), ((0:ℚ), (5:ℚ)), ((0:ℚ), (0:ℚ))] : List (ℚ × ℚ)).length ∧
    (∀ i, i < ([((0:ℚ), (0:ℚ)), ((0:ℚ), (5:ℚ)), ((0:ℚ), (0:ℚ))] : List (ℚ × ℚ)).length →
      squared_distance
          (([((0:ℚ), (0:ℚ)), ((0:ℚ), (5:ℚ)), ((0:ℚ), (0:ℚ))] : List (ℚ × ℚ)).getD
            ((nearestVertex (([((0:ℚ), (0:ℚ)), ((0:ℚ), (5:ℚ)), ((0:ℚ), (0:ℚ))] :
              List (ℚ × ℚ)).map JSVal.point) ((0:ℚ), (0:ℚ))).1) (0, 0)) ((0:ℚ), (0:ℚ)) ≤
        squared_distance
          (([((0:ℚ), (0:ℚ)), ((0:ℚ), (5:ℚ)), ((0:ℚ), (0:ℚ))] : List (ℚ × ℚ)).getD i (0, 0))
          ((0:ℚ), (0:ℚ))) ∧
    ∀ i, i < ([((0:ℚ), (0:ℚ)), ((0:ℚ), (5:ℚ)), ((0:ℚ), (0:ℚ))] : List (ℚ × ℚ)).length →
      (nearestVertex (([((0:ℚ), (0:ℚ)), ((0:ℚ), (5:ℚ)), ((0:ℚ), (0:ℚ))] :
        List (ℚ × ℚ)).map JSVal.point) ((0:ℚ), (0:ℚ))).1 < i →
      squared_distance
          (([((0:ℚ), (0:ℚ)), ((0:ℚ), (5:ℚ)), ((0:ℚ), (0:ℚ))] : List (ℚ × ℚ)).getD
            ((nearestVertex (([((0:ℚ), (0:ℚ)), ((0:ℚ), (5:ℚ)), ((0:ℚ), (0:ℚ))] :
              List (ℚ × ℚ)).map JSVal.point) ((0:ℚ), (0:ℚ))).1) (0, 0)) ((0:ℚ), (0:ℚ)) <
        squared_distance
          (([((0:ℚ), (0:ℚ)), ((0:ℚ), (5:ℚ)), ((0:ℚ), (0:ℚ))] : List (ℚ × ℚ)).getD i (0, 0))
          ((0:ℚ), (0:ℚ)) :=
  nearestVertex_tie_resolves_last
    [((0:ℚ), (0:ℚ)), ((0:ℚ), (5:ℚ)), ((0:ℚ), (0:ℚ))] ((0:ℚ), (0:ℚ))
    (by simp)
    ⟨0, by simp, by norm_num [squared_distance, MAXV]⟩

end WellsLayerSpec

namespace WellsLayerSpec

/-! ### Claims about the log color and width lookups -/

/-- findIndex over a list none of whose elements satisfies the predicate
is -1. -/
lemma jsFindIndexAux_eq_neg_one {α : Type} (p : α → Bool) (l : List α) (i : ℕ)
    (h : ∀ a ∈ l, p a = false) : jsFindIndexAux p l i = -1 := by
  induction l generalizing i with
  | nil => rfl
  | cons a rest ih =>
    simp only [jsFindIndexAux]
    rw [if_neg (by simp [h a (by simp)])]
    exact ih (i + 1) (fun x hx => h x (by simp [hx]))

/-- C3: when no entry of d.curves has a name equal to log_name
case-insensitively, getLogColor returns the empty array: findIndex yields
-1, the guard's second disjunct d.curves[-1] == undefined fires, and the
function returns [] before touching any color. -/
theorem getLogColor_missing_name_empty (interp : ℚ → Option (ℚ × ℚ × ℚ))
    (d : LogCurveDataType) (log_name : String)
    (h : ∀ cv ∈ d.curves, jsToLower cv.name ≠ jsToLower log_name) :
    getLogColor interp d log_name = .ok [] := by
  have hfind : getLogIDByName d log_name = -1 := by
    unfold getLogIDByName findLogID
    exact jsFindIndexAux_eq_neg_one _ _ 0 (fun a ha => by
      simp only [beq_eq_false_iff_ne]
      exact h a ha)
  simp only [getLogColor, hfind]
  norm_num [jsIndexI]

/-- Witness for C3 at a concrete curve list without the requested name. -/
theorem getLogColor_missing_name_empty_witness :
    getLogColor (fun _ => none)
      ⟨⟨"W"⟩, [⟨"MD", "continuous"⟩], [[1]]⟩ "PORO" = .ok [] :=
  getLogColor_missing_name_empty (fun _ => none)
    ⟨⟨"W"⟩, [⟨"MD", "continuous"⟩], [[1]]⟩ "PORO" (by decide)

/-- C4, failing input: when the requested log name matches the curve at
index 0, the guard !log_id of line 57 misfires (0 is falsy), and
getLogColor returns the empty array instead of one color per sample of
d.data[0], which here has three samples. -/
theorem getLogColor_first_curve_dropped :
    getLogIDByName ⟨⟨"W"⟩, [⟨"A", "discrete"⟩], [[1, 2, 3]]⟩ "A" = 0 ∧
    getLogColor (fun _ => none) ⟨⟨"W"⟩, [⟨"A", "discrete"⟩], [[1, 2, 3]]⟩ "A" = .ok [] ∧
    ((⟨⟨"W"⟩, [⟨"A", "discrete"⟩], [[1, 2, 3]]⟩ : LogCurveDataType).data.getD 0 []).length
      = 3 := by
  have hf : getLogIDByName ⟨⟨"W"⟩, [⟨"A", "discrete"⟩], [[1, 2, 3]]⟩ "A" = 0 := by decide
  refine ⟨hf, ?_, by decide⟩
  simp only [getLogColor, hf]
  norm_num

/-- C5, failing input: getLogWidth returns null for a curve matched at
index 0 (log_id = 0 is falsy) instead of the width array d.data[0], and
returns undefined (the out-of-range access d.data[-1]) rather than null
when no curve matches. -/
theorem getLogWidth_falsy_and_undefined :
    getLogWidth ⟨⟨"W"⟩, [⟨"A", ""⟩], [[1, 2]]⟩ "A" = .jsNull ∧
    getLogWidth ⟨⟨"W"⟩, [⟨"A", ""⟩], [[1, 2]]⟩ "B" = .jsUndefined := by
  constructor
  · have hf : getLogIDByName ⟨⟨"W"⟩, [⟨"A", ""⟩], [[1, 2]]⟩ "A" = 0 := by decide
    simp only [getLogWidth, hf]
    norm_num
  · have hf : getLogIDByName ⟨⟨"W"⟩, [⟨"A", ""⟩], [[1, 2]]⟩ "B" = -1 := by decide
    simp only [getLogWidth, hf]
    norm_num [jsIndexI]

end WellsLayerSpec

namespace WellsLayerSpec

/-! ### Claims about getPickingInfo's fallback behavior and COLOR_MAP -/

/-- C6, failing input: the first two conjuncts show the graceful guard of
lines 199–200 (missing object, missing data field) returning the info
unchanged; the third shows that when the named log curve cannot be
resolved (getLogIDByName yields -1, here logName "PORO" against a single
curve "MD"), getPickingInfo does not fall back but throws: the guard
!log_id only catches log_id = 0, so the code reads data[-1][vertex_index]
on an undefined row. -/
theorem getPickingInfo_unresolved_throws :
    getPickingInfo "PORO" ⟨none, some ((0:ℚ), (0:ℚ))⟩ = PickOut.unchanged ∧
    getPickingInfo "PORO" ⟨some ⟨[⟨"MD", ""⟩], none⟩, some ((0:ℚ), (0:ℚ))⟩ =
      PickOut.unchanged ∧
    getPickingInfo "PORO"
      ⟨some ⟨[⟨"MD", ""⟩], some [Row.points [((0:ℚ), (0:ℚ))]]⟩,
       some ((0:ℚ), (0:ℚ))⟩ = PickOut.jsError := by
  refine ⟨by decide, by decide, ?_⟩
  have hf : findLogID [⟨"MD", ""⟩] "PORO" = -1 := by decide
  norm_num [getPickingInfo, pickAnnotate, nearestVertex, scanAux, jsGT, sqDistJS,
    squared_distance, MAXV, rowElems, jsIndexI, hf]

/-- C8, failing input: COLOR_MAP has nine entries (indices 0 through 8),
but the discrete branch indexes it with value % 10, which is 9 for the
sample value 9: the lookup COLOR_MAP[9] is out of bounds and an undefined
color is pushed into the result (the none entry). -/
theorem getLogColor_discrete_out_of_bounds :
    COLOR_MAP.length = 9 ∧ jsMod 9 10 = 9 ∧
    getLogColor (fun _ => none)
      ⟨⟨"W"⟩, [⟨"PAD", ""⟩, ⟨"A", "discrete"⟩], [[], [9]]⟩ "A" = .ok [none] := by
  refine ⟨by decide, by norm_num [jsMod, jsTrunc], ?_⟩
  have hf : getLogIDByName ⟨⟨"W"⟩, [⟨"PAD", ""⟩, ⟨"A", "discrete"⟩], [[], [9]]⟩ "A" = 1 := by
    decide
  simp only [getLogColor, hf]
  norm_num [jsIndexI, jsIndexQ, jsMod, jsTrunc, COLOR_MAP]
  decide

end WellsLayerSpec

namespace WellsLayerSpec

/-- Folding min over a list of copies of the initial value gives that
value. -/
lemma foldl_min_all_eq (v : ℚ) : ∀ (l : List ℚ), (∀ x ∈ l, x = v) →
    l.foldl Min.min v = v
  | [], _ => rfl
  | x :: rest, h => by
    have hx : x = v := h x (by simp)
    rw [List.foldl_cons, hx, min_self]
    exact foldl_min_all_eq v rest (fun y hy => h y (by simp [hy]))

/-- Folding max over a list of copies of the initial value gives that
value. -/
lemma foldl_max_all_eq (v : ℚ) : ∀ (l : List ℚ), (∀ x ∈ l, x = v) →
    l.foldl Max.max v = v
  | [], _ => rfl
  | x :: rest, h => by
    have hx : x = v := h x (by simp)
    rw [List.foldl_cons, hx, max_self]
    exact foldl_max_all_eq v rest (fun y hy => h y (by simp [hy]))

/-- A filterMap whose function always keeps the same value is a map. -/
lemma filterMap_const_some {α β : Type} (b : β) : ∀ (l : List α),
    l.filterMap (fun _ => some b) = l.map (fun _ => b)
  | [] => rfl
  | x :: rest => by
    simp only [List.filterMap_cons, List.map_cons]
    rw [filterMap_const_some b rest]

/-- C9, counterexample: on a continuous curve whose samples are all 5, the
continuous branch is reached with max_delta = max - min = 0 and evaluates
its normalizing division with a zero denominator for every sample — there
is no guard.  contMaxDelta traces the denominator the branch uses.  The
interp here returns no color for any finite parameter, yet the result is
one [0, 0, 0] entry per sample: every parameter was the NaN of a zero
denominator, clamped to black by the d3 pipeline. -/
theorem getLogColor_zero_delta_counterexample :
    contMaxDelta ⟨⟨"W"⟩, [⟨"PAD", ""⟩, ⟨"A", "continuous"⟩], [[], [5, 5, 5]]⟩ "A" =
      some 0 ∧
    getLogColor (fun _ => none)
      ⟨⟨"W"⟩, [⟨"PAD", ""⟩, ⟨"A", "continuous"⟩], [[], [5, 5, 5]]⟩ "A" =
      .ok [some [0, 0, 0], some [0, 0, 0], some [0, 0, 0]] := by
  have hf : findLogID [⟨"PAD", ""⟩, ⟨"A", "continuous"⟩] "A" = 1 := by decide
  constructor
  · norm_num [contMaxDelta, getLogIDByName, hf, jsIndexI]
  · norm_num [getLogColor, getLogIDByName, hf, jsIndexI, jsDiv, List.filterMap_cons]

/-- C9, amended: the normalization of the continuous branch is not guarded
against a zero denominator: whenever getLogColor reaches the continuous
branch (a curve matched at a positive index n+1 with description
"continuous" and an existing data row) and the row's samples are all
equal, max_delta = 0 and every division is evaluated with denominator 0
(contMaxDelta = some 0); each NaN parameter is clamped by the d3 rgb
formatter, so the returned array holds the color [0, 0, 0] once per
sample, whatever interp does with finite parameters. -/
theorem getLogColor_constant_continuous_divides_by_zero
    (interp : ℚ → Option (ℚ × ℚ × ℚ)) (d : LogCurveDataType) (log_name : String)
    (n : ℕ) (cv : Curve) (v : ℚ) (vs : List ℚ)
    (h1 : getLogIDByName d log_name = (n : ℤ) + 1)
    (h2 : jsIndexI d.curves ((n : ℤ) + 1) = some cv)
    (h3 : cv.description = "continuous")
    (h4 : jsIndexI d.data ((n : ℤ) + 1) = some (v :: vs))
    (h5 : ∀ x ∈ vs, x = v) :
    contMaxDelta d log_name = some 0 ∧
    getLogColor interp d log_name =
      .ok ((v :: vs).map (fun _ => some [0, 0, 0])) := by
  have hmin : vs.foldl Min.min v = v := foldl_min_all_eq v vs h5
  have hmax : vs.foldl Max.max v = v := foldl_max_all_eq v vs h5
  have hne : ((n : ℤ) + 1) ≠ 0 := by omega
  constructor
  · simp only [contMaxDelta, h1, if_neg hne, h2, h3, h4, hmin, hmax, if_pos rfl]
    norm_num
  · simp only [getLogColor, h1, if_neg hne, h2, h3, h4, hmin, hmax, if_pos rfl, jsDiv,
      sub_self]
    norm_num [filterMap_const_some]

/-- Witness for the amended C9 at a concrete constant continuous curve. -/
theorem getLogColor_constant_continuous_divides_by_zero_witness :
    contMaxDelta ⟨⟨"W"⟩, [⟨"P", ""⟩, ⟨"A", "continuous"⟩], [[], [7, 7]]⟩ "A" = some 0 ∧
    getLogColor (fun _ => none)
      ⟨⟨"W"⟩, [⟨"P", ""⟩, ⟨"A", "continuous"⟩], [[], [7, 7]]⟩ "A" =
      .ok (([7, 7] : List ℚ).map (fun _ => some [0, 0, 0])) :=
  getLogColor_constant_continuous_divides_by_zero (fun _ => none)
    ⟨⟨"W"⟩, [⟨"P", ""⟩, ⟨"A", "continuous"⟩], [[], [7, 7]]⟩ "A" 0 ⟨"A", "continuous"⟩ 7 [7]
    (by decide) (by norm_num [jsIndexI]) rfl (by norm_num [jsIndexI]) (by simp)

end WellsLayerSpec

namespace WellsLayerSpec

/-! ### Determinism of the callbacks and the onClick frame effect -/

/-- C7: getLogColor, getLogWidth and getPickingInfo are deterministic:
two runs on equal inputs (the same curve data, log name and pick info,
and the same external color pipeline) produce equal outputs.  The
embedded callbacks are pure functions of their arguments, with no hidden
state. -/
theorem callbacks_deterministic (interp : ℚ → Option (ℚ × ℚ × ℚ))
    (d1 d2 : LogCurveDataType) (n1 n2 L1 L2 : String) (i1 i2 : PickInfoIn)
    (hd : d1 = d2) (hn : n1 = n2) (hL : L1 = L2) (hi : i1 = i2) :
    getLogColor interp d1 n1 = getLogColor interp d2 n2 ∧
    getLogWidth d1 n1 = getLogWidth d2 n2 ∧
    getPickingInfo L1 i1 = getPickingInfo L2 i2 := by
  subst hd; subst hn; subst hL; subst hi
  exact ⟨rfl, rfl, rfl⟩

/-- Witness for C7 at concrete equal inputs. -/
theorem callbacks_deterministic_witness :
    getLogColor (fun _ => none) ⟨⟨"W"⟩, [⟨"A", ""⟩], [[1]]⟩ "A" =
      getLogColor (fun _ => none) ⟨⟨"W"⟩, [⟨"A", ""⟩], [[1]]⟩ "A" ∧
    getLogWidth ⟨⟨"W"⟩, [⟨"A", ""⟩], [[1]]⟩ "A" =
      getLogWidth ⟨⟨"W"⟩, [⟨"A", ""⟩], [[1]]⟩ "A" ∧
    getPickingInfo "A" ⟨none, none⟩ = getPickingInfo "A" ⟨none, none⟩ :=
  callbacks_deterministic (fun _ => none) ⟨⟨"W"⟩, [⟨"A", ""⟩], [[1]]⟩
    ⟨⟨"W"⟩, [⟨"A", ""⟩], [[1]]⟩ "A" "A" "A" "A" ⟨none, none⟩ ⟨none, none⟩
    rfl rfl rfl rfl

/-- C10: WellsLayer.onClick with selectionEnabled false returns false and
leaves the layer props unchanged; with selectionEnabled true it returns
true and patches only the selectedFeature prop to the clicked object,
leaving every other prop equal to its previous value. -/
theorem onClick_patches_only_selectedFeature {F : Type}
    (props : WellsLayerProps F) (obj : Option F) :
    (props.selectionEnabled = false → onClick props obj = (false, props)) ∧
    (props.selectionEnabled = true →
      (onClick props obj).1 = true ∧
      (onClick props obj).2.selectedFeature = obj ∧
      (onClick props obj).2.pointRadiusScale = props.pointRadiusScale ∧
      (onClick props obj).2.lineWidthScale = props.lineWidthScale ∧
      (onClick props obj).2.outline = props.outline ∧
      (onClick props obj).2.selectionEnabled = props.selectionEnabled ∧
      (onClick props obj).2.logData = props.logData ∧
      (onClick props obj).2.logName = props.logName ∧
      (onClick props obj).2.logRadius = props.logRadius ∧
      (onClick props obj).2.logCurves = props.logCurves) := by
  constructor
  · intro h
    simp [onClick, h]
  · intro h
    simp [onClick, h, patchLayerProps]

/-- Witness for C10 at concrete props, exercising both branches. -/
theorem onClick_patches_only_selectedFeature_witness :
    (let p0 : WellsLayerProps ℕ :=
      ⟨1, 2, true, none, false, Sum.inl "log", "A", 3, true⟩
     onClick p0 (some 5) = (false, p0)) ∧
    (let p1 : WellsLayerProps ℕ :=
      ⟨1, 2, true, none, true, Sum.inl "log", "A", 3, true⟩
     (onClick p1 (some 5)).1 = true ∧
     (onClick p1 (some 5)).2.selectedFeature = some 5 ∧
     (onClick p1 (some 5)).2.pointRadiusScale = p1.pointRadiusScale ∧
     (onClick p1 (some 5)).2.lineWidthScale = p1.lineWidthScale ∧
     (onClick p1 (some 5)).2.outline = p1.outline ∧
     (onClick p1 (some 5)).2.selectionEnabled = p1.selectionEnabled ∧
     (onClick p1 (some 5)).2.logData = p1.logData ∧
     (onClick p1 (some 5)).2.logName = p1.logName ∧
     (onClick p1 (some 5)).2.logRadius = p1.logRadius ∧
     (onClick p1 (some 5)).2.logCurves = p1.logCurves) :=
  ⟨(onClick_patches_only_selectedFeature
      ⟨1, 2, true, none, false, Sum.inl "log", "A", 3, true⟩ (some 5)).1 rfl,
   (onClick_patches_only_selectedFeature
      ⟨1, 2, true, none, true, Sum.inl "log", "A", 3, true⟩ (some 5)).2 rfl⟩

end WellsLayerSpec
